import Mathlib

/-!
Shallow embedding of the Kranium tensor library (src/src/tensor/tensor.rs,
src/src/tensor/backend/cpu.rs, src/src/tensor/backend/traits.rs).

Modelling conventions:
* Rust `Vec<T>` buffers become `List α`; `usize` becomes `Nat`.
* A Rust panic (a failed `assert!`/`assert_eq!`, an out-of-bounds index, or
  an arithmetic underflow on `usize`) is modelled by returning `none`; a
  normal return of `v` is `some v`.  Thus `none` means the operation aborts
  with no result, partial or otherwise.
* The `Numeric` trait bound of traits.rs (Copy + Default + From<u8> + the
  four arithmetic operators + AddAssign) is modelled by an explicit record
  of operations `NumOps α`; `T::default()` is `ops.dflt` and `T::from(1u8)`
  is `ops.fromU8 1`.
* `CpuBackend` is a field-less unit struct; its methods become functions in
  the `CpuBackend` namespace.
* Rayon's `(0..m*n).into_par_iter().map(...).collect()` is an indexed
  parallel map whose collected result is in index order and where each task
  is a pure function of its index; its value is therefore that of the
  sequential map over `0, 1, ..., m*n-1`, which is how it is embedded.
-/

namespace Kranium

/-- The `Numeric` capability bundle of traits.rs: a default ("zero") value,
construction from an 8-bit unsigned integer, and the four arithmetic
operators (`AddAssign` is `add` used in accumulating position). -/
structure NumOps (α : Type) where
  dflt : α
  fromU8 : Nat → α
  add : α → α → α
  sub : α → α → α
  mul : α → α → α
  div : α → α → α

/-- Concrete instantiation at `Int`, used for witnesses and scenarios. -/
def intOps : NumOps Int :=
  ⟨0, fun n => (n : Int), fun x y => x + y, fun x y => x - y,
   fun x y => x * y, fun x y => x / y⟩

/-- Row-major strides: `strides[i] = Π_{j>i} shape[j]`, the value the loop
in `Tensor::compute_strides` (tensor.rs lines 97-103) writes into slot `i`
(`strides[len-1] = 1`, and descending `i`: `strides[i] = strides[i+1] *
shape[i+1]`). -/
def stridesOf : List Nat → List Nat
  | [] => []
  | _ :: rest => rest.prod :: stridesOf rest

/-- `Tensor::compute_strides` (tensor.rs lines 97-103).  For an empty shape
the loop bound `0..shape.len()-1` computes `0usize - 1`, which panics with a
subtraction overflow in debug builds and, in release builds, wraps to
`usize::MAX` so that the first loop iteration indexes `strides[usize::MAX]`
out of bounds and panics there; either way the call aborts, modelled by
`none`. -/
def compute_strides (shape : List Nat) : Option (List Nat) :=
  if shape.length = 0 then none
  else some (stridesOf shape)

namespace CpuBackend

variable {α : Type}

/-- `CpuBackend::allocate` (cpu.rs lines 7-10): `vec![T::default(); size]`
with `size = shape.iter().product()`. -/
def allocate (ops : NumOps α) (shape : List Nat) : List α :=
  List.replicate shape.prod ops.dflt

/-- `CpuBackend::zeros` (cpu.rs lines 12-15). -/
def zeros (ops : NumOps α) (shape : List Nat) : List α :=
  List.replicate shape.prod ops.dflt

/-- `CpuBackend::ones` (cpu.rs lines 17-20): `vec![T::from(1u8); size]`. -/
def ones (ops : NumOps α) (shape : List Nat) : List α :=
  List.replicate shape.prod (ops.fromU8 1)

/-- `CpuBackend::add` (cpu.rs lines 22-29): asserts equal lengths, then
writes `a[i] + b[i]` into slot `i` of a fresh buffer of length `a.len()`.
With equal lengths the zipped write covers every slot, so the result is the
pointwise zip. -/
def add (ops : NumOps α) (a b : List α) : Option (List α) :=
  if a.length = b.length then some (List.zipWith ops.add a b) else none

/-- `CpuBackend::sub` (cpu.rs lines 31-38). -/
def sub (ops : NumOps α) (a b : List α) : Option (List α) :=
  if a.length = b.length then some (List.zipWith ops.sub a b) else none

/-- `CpuBackend::mul` (cpu.rs lines 40-47). -/
def mul (ops : NumOps α) (a b : List α) : Option (List α) :=
  if a.length = b.length then some (List.zipWith ops.mul a b) else none

/-- `CpuBackend::div` (cpu.rs lines 49-56). -/
def div (ops : NumOps α) (a b : List α) : Option (List α) :=
  if a.length = b.length then some (List.zipWith ops.div a b) else none

/-- One output cell of matmul (cpu.rs lines 72-78): `sum = T::default();
for l in 0..k { sum += a[i*k+l] * b[l*n+j] }`, ascending `l`.  The indexing
`a[...]`/`b[...]` panics when out of bounds, hence the `Option` monad. -/
def matmulCellM (ops : NumOps α) (a b : List α) (k n i j : Nat) : Option α :=
  (List.range k).foldlM
    (fun sum l => do
      let av ← a[i * k + l]?
      let bv ← b[l * n + j]?
      pure (ops.add sum (ops.mul av bv)))
    ops.dflt

/-- `CpuBackend::matmul` (cpu.rs lines 58-83): asserts both shapes are 2-D
and inner dimensions match; then maps each output index of `0..m*n` (rayon
indexed parallel map, collected in index order) to its cell value computed
from `i = index / n`, `j = index % n`.  The source's bindings `m =
a_shape[0]`, `k = a_shape[1]`, `n = b_shape[1]` are inlined. -/
def matmul (ops : NumOps α) (a : List α) (aShape : List Nat)
    (b : List α) (bShape : List Nat) : Option (List α) :=
  if aShape.length = 2 ∧ bShape.length = 2 ∧ aShape.getD 1 0 = bShape.getD 0 0 then
    (List.range (aShape.getD 0 0 * bShape.getD 1 0)).mapM
      (fun index => matmulCellM ops a b (aShape.getD 1 0) (bShape.getD 1 0)
        (index / bShape.getD 1 0) (index % bShape.getD 1 0))
  else none

/-- Modelled from the spec: the sequential CPU backend variant is not under
src/ (only the parallel `CpuBackend` is); spec sections 2, 4.3 and 4.4
describe it as single-threaded, iterating output cells in row-major order
(`i` outer, `j` inner), each cell accumulating in ascending `l` order with
the same formula and the same preconditions as the parallel variant. -/
def matmulSeq (ops : NumOps α) (a : List α) (aShape : List Nat)
    (b : List α) (bShape : List Nat) : Option (List α) :=
  if aShape.length = 2 ∧ bShape.length = 2 ∧ aShape.getD 1 0 = bShape.getD 0 0 then
    ((List.range (aShape.getD 0 0)).flatMap
        (fun i => (List.range (bShape.getD 1 0)).map (fun j => (i, j)))).mapM
      (fun p => matmulCellM ops a b (aShape.getD 1 0) (bShape.getD 1 0) p.1 p.2)
  else none

end CpuBackend

/-- The tensor record of tensor.rs lines 8-26.  The `backend` field is the
field-less unit struct `CpuBackend` and the `_marker` field is a
`PhantomData`; neither carries runtime data, so both are omitted. -/
structure Tensor (α : Type) where
  data : List α
  shape : List Nat
  strides : List Nat
  deriving DecidableEq

namespace Tensor

variable {α : Type}

/-- `Tensor::ndim` (tensor.rs lines 121-123). -/
def ndim (t : Tensor α) : Nat := t.shape.length

/-- `Tensor::size` (tensor.rs lines 116-118). -/
def size (t : Tensor α) : Nat := t.data.length

/-- `Tensor::from_data` (tensor.rs lines 76-94): asserts
`data.len() == shape.iter().product()`, then computes strides. -/
def from_data (data : List α) (shape : List Nat) : Option (Tensor α) :=
  if data.length = shape.prod then
    (compute_strides shape).map (fun strides => ⟨data, shape, strides⟩)
  else none

/-- `Tensor::new` (tensor.rs lines 34-45). -/
def new (ops : NumOps α) (shape : List Nat) : Option (Tensor α) :=
  (compute_strides shape).map (fun strides => ⟨CpuBackend.allocate ops shape, shape, strides⟩)

/-- `Tensor::zeros` (tensor.rs lines 48-59). -/
def zeros (ops : NumOps α) (shape : List Nat) : Option (Tensor α) :=
  (compute_strides shape).map (fun strides => ⟨CpuBackend.zeros ops shape, shape, strides⟩)

/-- `Tensor::ones` (tensor.rs lines 62-73). -/
def ones (ops : NumOps α) (shape : List Nat) : Option (Tensor α) :=
  (compute_strides shape).map (fun strides => ⟨CpuBackend.ones ops shape, shape, strides⟩)

/-- `Tensor::get_flat_index` (tensor.rs lines 149-173): asserts
`indices.len() == ndim`, asserts every `indices[i] < shape[i]`, then
returns `Σ indices[i] * strides[i]`. -/
def get_flat_index (t : Tensor α) (indices : List Nat) : Option Nat :=
  if indices.length = t.ndim then
    if (List.zip indices t.shape).all (fun p => decide (p.1 < p.2)) then
      some (List.zipWith (fun i s => i * s) indices t.strides).sum
    else none
  else none

/-- `Tensor::get` (tensor.rs lines 257-260): `self.data[idx]` panics when
the flat index is out of bounds, hence the `Option` access. -/
def get (t : Tensor α) (indices : List Nat) : Option α :=
  (t.get_flat_index indices).bind (fun idx => t.data[idx]?)

/-- `Tensor::set` (tensor.rs lines 263-266): `self.data[idx] = value`
panics when the flat index is out of bounds. -/
def set (t : Tensor α) (indices : List Nat) (value : α) : Option (Tensor α) :=
  (t.get_flat_index indices).bind (fun idx =>
    if idx < t.data.length then some ⟨t.data.set idx value, t.shape, t.strides⟩
    else none)

/-- `Tensor::add` (tensor.rs lines 176-186): asserts equal shapes, runs the
backend, wraps with `from_data` at the same shape. -/
def add (ops : NumOps α) (t u : Tensor α) : Option (Tensor α) :=
  if t.shape = u.shape then
    (CpuBackend.add ops t.data u.data).bind (fun rd => from_data rd t.shape)
  else none

/-- `Tensor::sub` (tensor.rs lines 189-199). -/
def sub (ops : NumOps α) (t u : Tensor α) : Option (Tensor α) :=
  if t.shape = u.shape then
    (CpuBackend.sub ops t.data u.data).bind (fun rd => from_data rd t.shape)
  else none

/-- `Tensor::mul` (tensor.rs lines 202-212). -/
def mul (ops : NumOps α) (t u : Tensor α) : Option (Tensor α) :=
  if t.shape = u.shape then
    (CpuBackend.mul ops t.data u.data).bind (fun rd => from_data rd t.shape)
  else none

/-- `Tensor::div` (tensor.rs lines 215-225). -/
def div (ops : NumOps α) (t u : Tensor α) : Option (Tensor α) :=
  if t.shape = u.shape then
    (CpuBackend.div ops t.data u.data).bind (fun rd => from_data rd t.shape)
  else none

/-- `Tensor::matmul` (tensor.rs lines 228-254): asserts both operands 2-D
and `self.shape[1] == other.shape[0]`; result shape
`[self.shape[0], other.shape[1]]`. -/
def matmul (ops : NumOps α) (t u : Tensor α) : Option (Tensor α) :=
  if t.ndim = 2 ∧ u.ndim = 2 ∧ t.shape.getD 1 0 = u.shape.getD 0 0 then
    (CpuBackend.matmul ops t.data t.shape u.data u.shape).bind
      (fun rd => from_data rd [t.shape.getD 0 0, u.shape.getD 1 0])
  else none

/-- `Tensor::reshape` (tensor.rs lines 136-146): asserts
`size() == new_shape.iter().product()`, then `from_data` on a copy. -/
def reshape (t : Tensor α) (new_shape : List Nat) : Option (Tensor α) :=
  if t.size = new_shape.prod then from_data t.data new_shape else none

/-- `Clone for Tensor` (tensor.rs lines 340-353): field-wise copy. -/
def clone (t : Tensor α) : Tensor α :=
  ⟨t.data, t.shape, t.strides⟩

/-- Flat positions read by `Tensor::transpose` (tensor.rs lines 280-284),
in push order: `j` outer over `0..shape[1]`, `i` inner over `0..shape[0]`,
reading `data[i * shape[1] + j]`. -/
def transposeIdx (r c : Nat) : List Nat :=
  (List.range c).flatMap (fun j => (List.range r).map (fun i => i * c + j))

/-- `Tensor::transpose` (tensor.rs lines 269-287): asserts 2-D, pushes the
transposed reads (each `data[...]` panics when out of bounds), wraps with
`from_data` at shape `[shape[1], shape[0]]`. -/
def transpose (t : Tensor α) : Option (Tensor α) :=
  if t.ndim = 2 then
    ((transposeIdx (t.shape.getD 0 0) (t.shape.getD 1 0)).mapM (fun idx => t.data[idx]?)).bind
      (fun rd => from_data rd [t.shape.getD 1 0, t.shape.getD 0 0])
  else none

/-- The construction invariant of spec section 3: buffer length is the
shape product and the strides are the row-major strides of the shape. -/
def wf (t : Tensor α) : Prop :=
  t.data.length = t.shape.prod ∧ t.strides = stridesOf t.shape

end Tensor

section Helpers

variable {α β γ δ : Type}

theorem mapM_option_length : ∀ (xs : List γ) (g : γ → Option β) (rd : List β),
    xs.mapM g = some rd → rd.length = xs.length := by
  intro xs
  induction xs with
  | nil =>
    intro g rd h
    simp only [List.mapM_nil, pure, Option.some.injEq] at h
    simp [← h]
  | cons x xs ih =>
    intro g rd h
    rw [List.mapM_cons] at h
    cases hx : g x with
    | none => rw [hx] at h; simp at h
    | some y =>
      rw [hx] at h
      cases hxs : xs.mapM g with
      | none => rw [hxs] at h; simp at h
      | some ys =>
        rw [hxs] at h
        simp only [Option.bind_eq_bind, Option.some_bind, pure, Option.some.injEq] at h
        subst h
        simp [ih g ys hxs]

theorem mapM_option_getElem? : ∀ (xs : List γ) (g : γ → Option β) (rd : List β),
    xs.mapM g = some rd → ∀ p : Nat, rd[p]? = xs[p]?.bind g := by
  intro xs
  induction xs with
  | nil =>
    intro g rd h p
    simp only [List.mapM_nil, pure, Option.some.injEq] at h
    subst h
    simp
  | cons x xs ih =>
    intro g rd h p
    rw [List.mapM_cons] at h
    cases hx : g x with
    | none => rw [hx] at h; simp at h
    | some y =>
      rw [hx] at h
      cases hxs : xs.mapM g with
      | none => rw [hxs] at h; simp at h
      | some ys =>
        rw [hxs] at h
        simp only [Option.bind_eq_bind, Option.some_bind, pure, Option.some.injEq] at h
        subst h
        cases p with
        | zero => simp [hx]
        | succ q => simp [ih g ys hxs q]

theorem mapM_option_isSome : ∀ (xs : List γ) (g : γ → Option β),
    (∀ x ∈ xs, (g x).isSome) → ∃ rd, xs.mapM g = some rd := by
  intro xs
  induction xs with
  | nil => intro g _; exact ⟨[], by simp only [List.mapM_nil]; rfl⟩
  | cons x xs ih =>
    intro g h
    cases hx : g x with
    | none =>
      have hs := h x (by simp)
      rw [hx] at hs
      simp at hs
    | some y =>
      obtain ⟨ys, hys⟩ := ih g (fun z hz => h z (by simp [hz]))
      refine ⟨y :: ys, ?_⟩
      rw [List.mapM_cons, hx, hys]
      rfl

theorem mapM_option_map : ∀ (xs : List γ) (f : γ → δ) (g : δ → Option β),
    (xs.map f).mapM g = xs.mapM (fun x => g (f x)) := by
  intro xs
  induction xs with
  | nil => intro f g; simp only [List.map_nil, List.mapM_nil]
  | cons x xs ih =>
    intro f g
    rw [List.map_cons, List.mapM_cons, List.mapM_cons, ih]

theorem foldlM_option_eq_foldl : ∀ (xs : List γ) (g : β → γ → Option β) (f : β → γ → β),
    (∀ s x, x ∈ xs → g s x = some (f s x)) → ∀ init : β,
    xs.foldlM g init = some (xs.foldl f init) := by
  intro xs
  induction xs with
  | nil => intro g f _ init; simp only [List.foldlM_nil, List.foldl_nil]; rfl
  | cons x xs ih =>
    intro g f h init
    rw [List.foldlM_cons, h init x (by simp), List.foldl_cons]
    simp only [Option.bind_eq_bind, Option.some_bind]
    exact ih g f (fun s z hz => h s z (by simp [hz])) (f init x)

theorem encode_div (i j n : Nat) (hj : j < n) : (i * n + j) / n = i := by
  have hn : 0 < n := Nat.lt_of_le_of_lt (Nat.zero_le j) hj
  rw [Nat.mul_comm, Nat.mul_add_div hn, Nat.div_eq_of_lt hj, Nat.add_zero]

theorem encode_mod (i j n : Nat) (hj : j < n) : (i * n + j) % n = j := by
  rw [Nat.mul_comm, Nat.mul_add_mod, Nat.mod_eq_of_lt hj]

theorem encode_lt (i j m n : Nat) (hi : i < m) (hj : j < n) : i * n + j < m * n :=
  calc i * n + j < i * n + n := Nat.add_lt_add_left hj _
    _ = (i + 1) * n := by ring
    _ ≤ m * n := Nat.mul_le_mul_right n hi

theorem range_flatMap_blocks : ∀ (b a : Nat) (f : Nat → Nat → β),
    (List.range b).flatMap (fun j => (List.range a).map (f j)) =
      (List.range (b * a)).map (fun p => f (p / a) (p % a)) := by
  intro b
  induction b with
  | zero => intro a f; simp
  | succ b ih =>
    intro a f
    rw [List.range_succ, List.flatMap_append, ih a f]
    have hmul : (b + 1) * a = b * a + a := by ring
    rw [hmul, List.range_add, List.map_append]
    congr 1
    rw [List.flatMap_cons, List.flatMap_nil, List.append_nil, List.map_map]
    apply List.map_congr_left
    intro x hx
    rw [List.mem_range] at hx
    simp only [Function.comp]
    rw [encode_div b x a hx, encode_mod b x a hx]

theorem getElem?_eq_some_getD (l : List α) (i : Nat) (d : α) (h : i < l.length) :
    l[i]? = some (l.getD i d) := by
  rw [List.getD_eq_getElem?_getD, List.getElem?_eq_getElem h]
  rfl

theorem zipWith_getElem?_getD (f : α → α → β) :
    ∀ (a : List α) (b : List α) (i : Nat) (d e : α), i < a.length → i < b.length →
    (List.zipWith f a b)[i]? = some (f (a.getD i d) (b.getD i e)) := by
  intro a
  induction a with
  | nil => intro b i d e hi _; simp at hi
  | cons x xs ih =>
    intro b i d e hi hj
    cases b with
    | nil => simp at hj
    | cons y ys =>
      cases i with
      | zero => simp [List.getD]
      | succ q =>
        rw [List.zipWith_cons_cons]
        simp only [List.getElem?_cons_succ, List.getD_cons_succ]
        exact ih ys q d e (by simpa using hi) (by simpa using hj)

theorem zip_getElem?_getD : ∀ (a b : List Nat) (i : Nat), i < a.length → i < b.length →
    (List.zip a b)[i]? = some (a.getD i 0, b.getD i 0) := by
  intro a
  induction a with
  | nil => intro b i hi _; simp at hi
  | cons x xs ih =>
    intro b i hi hj
    cases b with
    | nil => simp at hj
    | cons y ys =>
      cases i with
      | zero => simp [List.getD]
      | succ q =>
        rw [List.zip_cons_cons]
        simp only [List.getElem?_cons_succ, List.getD_cons_succ]
        exact ih ys q (by simpa using hi) (by simpa using hj)

theorem stridesOf_length : ∀ (shape : List Nat), (stridesOf shape).length = shape.length := by
  intro shape
  induction shape with
  | nil => rfl
  | cons d rest ih => simp [stridesOf, ih]

theorem stridesOf_getD : ∀ (shape : List Nat) (i : Nat), i < shape.length →
    (stridesOf shape).getD i 0 = (shape.drop (i + 1)).prod := by
  intro shape
  induction shape with
  | nil => intro i hi; simp at hi
  | cons d rest ih =>
    intro i hi
    cases i with
    | zero => simp [stridesOf]
    | succ q =>
      simp only [stridesOf, List.getD_cons_succ, List.drop_succ_cons]
      exact ih q (by simpa using hi)

/-- The flat offset `Σ indices[i] * strides[i]` computed by
`Tensor::get_flat_index` when the strides are the row-major strides of the
shape. -/
def flatOf (shape idx : List Nat) : Nat :=
  (List.zipWith (fun i s => i * s) idx (stridesOf shape)).sum

theorem flatOf_cons (d : Nat) (rest : List Nat) (i : Nat) (is : List Nat) :
    flatOf (d :: rest) (i :: is) = i * rest.prod + flatOf rest is := by
  simp [flatOf, stridesOf]

theorem flatOf_lt {shape idx : List Nat}
    (h : List.Forall₂ (fun i s => i < s) idx shape) :
    flatOf shape idx < shape.prod := by
  induction h with
  | nil => simp [flatOf]
  | @cons a b l1 l2 hab htail ih =>
    rw [flatOf_cons, List.prod_cons]
    calc a * l2.prod + flatOf l2 l1 < a * l2.prod + l2.prod := Nat.add_lt_add_left ih _
      _ = (a + 1) * l2.prod := by ring
      _ ≤ b * l2.prod := Nat.mul_le_mul_right l2.prod hab

theorem flatOf_inj : ∀ (shape idx1 idx2 : List Nat),
    List.Forall₂ (fun i s => i < s) idx1 shape →
    List.Forall₂ (fun i s => i < s) idx2 shape →
    flatOf shape idx1 = flatOf shape idx2 → idx1 = idx2 := by
  intro shape
  induction shape with
  | nil =>
    intro idx1 idx2 h1 h2 _
    cases h1
    cases h2
    rfl
  | cons d rest ih =>
    intro idx1 idx2 h1 h2 heq
    cases h1 with
    | @cons a1 _ l1 _ ha1 htail1 =>
      cases h2 with
      | @cons a2 _ l2 _ ha2 htail2 =>
        rw [flatOf_cons, flatOf_cons] at heq
        have hr1 : flatOf rest l1 < rest.prod := flatOf_lt htail1
        have hr2 : flatOf rest l2 < rest.prod := flatOf_lt htail2
        have hP : 0 < rest.prod := Nat.lt_of_le_of_lt (Nat.zero_le _) hr1
        have e1 : (a1 * rest.prod + flatOf rest l1) / rest.prod = a1 := by
          rw [Nat.mul_comm, Nat.mul_add_div hP, Nat.div_eq_of_lt hr1, Nat.add_zero]
        have e2 : (a2 * rest.prod + flatOf rest l2) / rest.prod = a2 := by
          rw [Nat.mul_comm, Nat.mul_add_div hP, Nat.div_eq_of_lt hr2, Nat.add_zero]
        have hd : a1 = a2 := by rw [← e1, ← e2, heq]
        subst hd
        have htl : flatOf rest l1 = flatOf rest l2 := by
          have := heq
          omega
        rw [ih l1 l2 htail1 htail2 htl]

theorem all_zip_lt_iff : ∀ (idx shape : List Nat), idx.length = shape.length →
    ((List.zip idx shape).all (fun p => decide (p.1 < p.2)) = true ↔
      List.Forall₂ (fun i s => i < s) idx shape) := by
  intro idx
  induction idx with
  | nil =>
    intro shape hlen
    cases shape with
    | nil => simp
    | cons s ss => simp at hlen
  | cons i is ih =>
    intro shape hlen
    cases shape with
    | nil => simp at hlen
    | cons s ss =>
      rw [List.zip_cons_cons, List.all_cons, Bool.and_eq_true, decide_eq_true_eq,
        ih ss (by simpa using hlen)]
      constructor
      · rintro ⟨h1, h2⟩
        exact List.Forall₂.cons h1 h2
      · intro h
        cases h with
        | cons h1 h2 => exact ⟨h1, h2⟩

theorem mapM_option_eq_map : ∀ (xs : List γ) (g : γ → Option β) (f : γ → β),
    (∀ x ∈ xs, g x = some (f x)) → xs.mapM g = some (xs.map f) := by
  intro xs
  induction xs with
  | nil => intro g f _; simp only [List.mapM_nil, List.map_nil]; rfl
  | cons x xs ih =>
    intro g f h
    rw [List.mapM_cons, h x (by simp), ih g f (fun z hz => h z (by simp [hz])), List.map_cons]
    rfl

theorem from_data_eq (data : List α) (shape : List Nat)
    (hlen : data.length = shape.prod) (hne : shape.length ≠ 0) :
    Tensor.from_data data shape = some ⟨data, shape, stridesOf shape⟩ := by
  unfold Tensor.from_data compute_strides
  rw [if_pos hlen, if_neg hne]
  rfl

theorem from_data_some {data : List α} {shape : List Nat} {t : Tensor α}
    (h : Tensor.from_data data shape = some t) :
    t.data = data ∧ t.shape = shape ∧ t.strides = stridesOf shape := by
  unfold Tensor.from_data compute_strides at h
  by_cases h1 : data.length = shape.prod
  · rw [if_pos h1] at h
    by_cases h2 : shape.length = 0
    · rw [if_pos h2] at h
      simp at h
    · rw [if_neg h2] at h
      rw [Option.map_some'] at h
      rw [Option.some.injEq] at h
      subst h
      exact ⟨rfl, rfl, rfl⟩
  · rw [if_neg h1] at h
    simp at h

theorem get_flat_index_eq (t : Tensor α) (indices : List Nat)
    (hw : t.strides = stridesOf t.shape)
    (hv : List.Forall₂ (fun i s => i < s) indices t.shape) :
    t.get_flat_index indices = some (flatOf t.shape indices) := by
  have hlen : indices.length = t.shape.length := List.Forall₂.length_eq hv
  unfold Tensor.get_flat_index Tensor.ndim
  rw [if_pos hlen, if_pos ((all_zip_lt_iff indices t.shape hlen).mpr hv), hw]
  rfl

theorem transposeIdx_eq (r c : Nat) :
    Tensor.transposeIdx r c = (List.range (c * r)).map (fun p => p % r * c + p / r) := by
  unfold Tensor.transposeIdx
  rw [range_flatMap_blocks c r (fun j i => i * c + j)]

theorem transposeIdx_length (r c : Nat) : (Tensor.transposeIdx r c).length = c * r := by
  rw [transposeIdx_eq, List.length_map, List.length_range]

theorem transposeIdx_mem_lt (r c : Nat) : ∀ x ∈ Tensor.transposeIdx r c, x < r * c := by
  intro x hx
  rw [transposeIdx_eq, List.mem_map] at hx
  obtain ⟨p, hp, rfl⟩ := hx
  rw [List.mem_range] at hp
  have hr : 0 < r := by
    rcases Nat.eq_zero_or_pos r with h0 | h0
    · subst h0; simp at hp
    · exact h0
  exact encode_lt (p % r) (p / r) r c (Nat.mod_lt p hr) ((Nat.div_lt_iff_lt_mul hr).mpr hp)

theorem transposeIdx_getElem? (r c i j : Nat) (hi : i < r) (hj : j < c) :
    (Tensor.transposeIdx r c)[j * r + i]? = some (i * c + j) := by
  have hlt : j * r + i < c * r := encode_lt j i c r hj hi
  rw [transposeIdx_eq, List.getElem?_map, List.getElem?_range hlt, Option.map_some',
    encode_mod j i r hi, encode_div j i r hi]

theorem matmulCellM_eq_some (ops : NumOps α) (a b : List α) (k n i j : Nat)
    (ha : ∀ l, l < k → i * k + l < a.length)
    (hb : ∀ l, l < k → l * n + j < b.length) :
    CpuBackend.matmulCellM ops a b k n i j =
      some ((List.range k).foldl
        (fun sum l => ops.add sum
          (ops.mul (a.getD (i * k + l) ops.dflt) (b.getD (l * n + j) ops.dflt)))
        ops.dflt) := by
  unfold CpuBackend.matmulCellM
  apply foldlM_option_eq_foldl
  intro s l hl
  rw [List.mem_range] at hl
  rw [getElem?_eq_some_getD a _ ops.dflt (ha l hl),
    getElem?_eq_some_getD b _ ops.dflt (hb l hl)]
  rfl

end Helpers

section MoreHelpers

variable {α : Type}

/-- The length part of the construction invariant claimed in spec section 3:
buffer length equals the shape product, and the stride vector has exactly
one stride per dimension. -/
def Tensor.lenInv (t : Tensor α) : Prop :=
  t.data.length = t.shape.prod ∧ t.strides.length = t.shape.length ∧
    t.shape.length = t.ndim

theorem from_data_lenInv {data : List α} {shape : List Nat} {t : Tensor α}
    (h : Tensor.from_data data shape = some t) : t.lenInv := by
  unfold Tensor.from_data compute_strides at h
  by_cases h1 : data.length = shape.prod
  · rw [if_pos h1] at h
    by_cases h2 : shape.length = 0
    · rw [if_pos h2] at h
      simp at h
    · rw [if_neg h2] at h
      rw [Option.map_some', Option.some.injEq] at h
      subst h
      exact ⟨h1, stridesOf_length shape, rfl⟩
  · rw [if_neg h1] at h
    simp at h

theorem elementwise_spec (f : α → α → α)
    (bop : NumOps α → List α → List α → Option (List α))
    (top : NumOps α → Tensor α → Tensor α → Option (Tensor α)) (ops : NumOps α)
    (hbop : ∀ a b : List α,
      bop ops a b = if a.length = b.length then some (List.zipWith f a b) else none)
    (htop : ∀ t u : Tensor α,
      top ops t u = if t.shape = u.shape then
        (bop ops t.data u.data).bind (fun rd => Tensor.from_data rd t.shape) else none)
    (A B : Tensor α) (hs : A.shape = B.shape) (hA : A.data.length = A.shape.prod)
    (hB : B.data.length = B.shape.prod) (hne : A.shape ≠ []) :
    ∃ C, top ops A B = some C ∧ C.shape = A.shape ∧
      ∀ i, i < A.data.length →
        C.data[i]? = some (f (A.data.getD i ops.dflt) (B.data.getD i ops.dflt)) := by
  have hlen : A.data.length = B.data.length := by rw [hA, hB, hs]
  have hzlen : (List.zipWith f A.data B.data).length = A.data.length := by
    rw [List.length_zipWith, ← hlen, Nat.min_self]
  refine ⟨⟨List.zipWith f A.data B.data, A.shape, stridesOf A.shape⟩, ?_, rfl, ?_⟩
  · rw [htop, if_pos hs, hbop, if_pos hlen, Option.some_bind]
    exact from_data_eq _ _ (by rw [hzlen, hA])
      (fun h0 => hne (List.length_eq_zero.mp h0))
  · intro i hi
    exact zipWith_getElem?_getD f A.data B.data i ops.dflt ops.dflt hi (hlen ▸ hi)

end MoreHelpers

/-- C3: for equal-shaped tensors (shape nonempty so the construction of the
result does not abort, and buffer lengths matching the shape product as
holds for every constructed tensor), each of add/sub/mul/div succeeds,
preserves the shape, and is pointwise: result[i] = op(A[i], B[i]) for every
valid flat index. -/
theorem c3_elementwise_pointwise :
    ∀ (α : Type) (ops : NumOps α) (A B : Tensor α),
      A.shape = B.shape → A.data.length = A.shape.prod →
      B.data.length = B.shape.prod → A.shape ≠ [] →
      (∃ C, Tensor.add ops A B = some C ∧ C.shape = A.shape ∧
        ∀ i, i < A.data.length →
          C.data[i]? = some (ops.add (A.data.getD i ops.dflt) (B.data.getD i ops.dflt))) ∧
      (∃ C, Tensor.sub ops A B = some C ∧ C.shape = A.shape ∧
        ∀ i, i < A.data.length →
          C.data[i]? = some (ops.sub (A.data.getD i ops.dflt) (B.data.getD i ops.dflt))) ∧
      (∃ C, Tensor.mul ops A B = some C ∧ C.shape = A.shape ∧
        ∀ i, i < A.data.length →
          C.data[i]? = some (ops.mul (A.data.getD i ops.dflt) (B.data.getD i ops.dflt))) ∧
      (∃ C, Tensor.div ops A B = some C ∧ C.shape = A.shape ∧
        ∀ i, i < A.data.length →
          C.data[i]? = some (ops.div (A.data.getD i ops.dflt) (B.data.getD i ops.dflt))) := by
  intro α ops A B hs hA hB hne
  exact ⟨elementwise_spec ops.add CpuBackend.add Tensor.add ops (fun a b => rfl)
      (fun t u => rfl) A B hs hA hB hne,
    elementwise_spec ops.sub CpuBackend.sub Tensor.sub ops (fun a b => rfl)
      (fun t u => rfl) A B hs hA hB hne,
    elementwise_spec ops.mul CpuBackend.mul Tensor.mul ops (fun a b => rfl)
      (fun t u => rfl) A B hs hA hB hne,
    elementwise_spec ops.div CpuBackend.div Tensor.div ops (fun a b => rfl)
      (fun t u => rfl) A B hs hA hB hne⟩

/-- C3 witness: the pointwise addition law evaluated on two concrete
shape-`[3]` tensors. -/
theorem c3_witness :
    ((Tensor.mk [(1 : Int), 2, 3] [3] [1]).shape = (Tensor.mk [(4 : Int), 5, 6] [3] [1]).shape ∧
      (Tensor.mk [(1 : Int), 2, 3] [3] [1]).data.length =
        (Tensor.mk [(1 : Int), 2, 3] [3] [1]).shape.prod ∧
      (Tensor.mk [(4 : Int), 5, 6] [3] [1]).data.length =
        (Tensor.mk [(4 : Int), 5, 6] [3] [1]).shape.prod ∧
      (Tensor.mk [(1 : Int), 2, 3] [3] [1]).shape ≠ []) ∧
    ∃ C, Tensor.add intOps (Tensor.mk [(1 : Int), 2, 3] [3] [1])
        (Tensor.mk [(4 : Int), 5, 6] [3] [1]) = some C ∧
      C.shape = (Tensor.mk [(1 : Int), 2, 3] [3] [1]).shape ∧
      ∀ i, i < (Tensor.mk [(1 : Int), 2, 3] [3] [1]).data.length →
        C.data[i]? = some (intOps.add
          ((Tensor.mk [(1 : Int), 2, 3] [3] [1]).data.getD i intOps.dflt)
          ((Tensor.mk [(4 : Int), 5, 6] [3] [1]).data.getD i intOps.dflt)) :=
  ⟨⟨rfl, rfl, rfl, by decide⟩,
    (c3_elementwise_pointwise Int intOps (Tensor.mk [(1 : Int), 2, 3] [3] [1])
      (Tensor.mk [(4 : Int), 5, 6] [3] [1]) rfl rfl rfl (by decide)).1⟩

/-- C8: every tensor produced by a constructor (`new`, `zeros`, `ones`,
`from_data`) or an operation (`add`, `sub`, `mul`, `div`, `matmul`,
`reshape`, `transpose`, `clone`) satisfies `data.len == product(shape)` and
`strides.len == shape.len == ndim` (for `clone`, assuming its input does,
since it copies fields verbatim). -/
theorem c8_len_invariants :
    (∀ (α : Type) (ops : NumOps α) (shape : List Nat) (t : Tensor α),
      Tensor.new ops shape = some t → t.lenInv) ∧
    (∀ (α : Type) (ops : NumOps α) (shape : List Nat) (t : Tensor α),
      Tensor.zeros ops shape = some t → t.lenInv) ∧
    (∀ (α : Type) (ops : NumOps α) (shape : List Nat) (t : Tensor α),
      Tensor.ones ops shape = some t → t.lenInv) ∧
    (∀ (α : Type) (data : List α) (shape : List Nat) (t : Tensor α),
      Tensor.from_data data shape = some t → t.lenInv) ∧
    (∀ (α : Type) (ops : NumOps α) (a b t : Tensor α),
      Tensor.add ops a b = some t → t.lenInv) ∧
    (∀ (α : Type) (ops : NumOps α) (a b t : Tensor α),
      Tensor.sub ops a b = some t → t.lenInv) ∧
    (∀ (α : Type) (ops : NumOps α) (a b t : Tensor α),
      Tensor.mul ops a b = some t → t.lenInv) ∧
    (∀ (α : Type) (ops : NumOps α) (a b t : Tensor α),
      Tensor.div ops a b = some t → t.lenInv) ∧
    (∀ (α : Type) (ops : NumOps α) (a b t : Tensor α),
      Tensor.matmul ops a b = some t → t.lenInv) ∧
    (∀ (α : Type) (a : Tensor α) (shape : List Nat) (t : Tensor α),
      Tensor.reshape a shape = some t → t.lenInv) ∧
    (∀ (α : Type) (a t : Tensor α), Tensor.transpose a = some t → t.lenInv) ∧
    (∀ (α : Type) (a : Tensor α), a.lenInv → (Tensor.clone a).lenInv) := by
  have hctor : ∀ (α : Type) (d : List α) (shape : List Nat) (t : Tensor α),
      d.length = shape.prod →
      (compute_strides shape).map
        (fun strides => (⟨d, shape, strides⟩ : Tensor α)) = some t → t.lenInv := by
    intro α d shape t hd h
    unfold compute_strides at h
    by_cases h2 : shape.length = 0
    · rw [if_pos h2] at h
      simp at h
    · rw [if_neg h2] at h
      rw [Option.map_some', Option.some.injEq] at h
      subst h
      exact ⟨hd, stridesOf_length shape, rfl⟩
  have hbind : ∀ (α : Type) (x : Option (List α)) (shape : List Nat) (t : Tensor α),
      x.bind (fun rd => Tensor.from_data rd shape) = some t → t.lenInv := by
    intro α x shape t h
    obtain ⟨rd, _, h2⟩ := Option.bind_eq_some.mp h
    exact from_data_lenInv h2
  refine ⟨?_, ?_, ?_, ?_, ?_, ?_, ?_, ?_, ?_, ?_, ?_, ?_⟩
  · intro α ops shape t h
    exact hctor α _ shape t (List.length_replicate _ _) h
  · intro α ops shape t h
    exact hctor α _ shape t (List.length_replicate _ _) h
  · intro α ops shape t h
    exact hctor α _ shape t (List.length_replicate _ _) h
  · intro α data shape t h
    exact from_data_lenInv h
  · intro α ops a b t h
    unfold Tensor.add at h
    by_cases hs : a.shape = b.shape
    · rw [if_pos hs] at h
      exact hbind α _ _ t h
    · rw [if_neg hs] at h
      simp at h
  · intro α ops a b t h
    unfold Tensor.sub at h
    by_cases hs : a.shape = b.shape
    · rw [if_pos hs] at h
      exact hbind α _ _ t h
    · rw [if_neg hs] at h
      simp at h
  · intro α ops a b t h
    unfold Tensor.mul at h
    by_cases hs : a.shape = b.shape
    · rw [if_pos hs] at h
      exact hbind α _ _ t h
    · rw [if_neg hs] at h
      simp at h
  · intro α ops a b t h
    unfold Tensor.div at h
    by_cases hs : a.shape = b.shape
    · rw [if_pos hs] at h
      exact hbind α _ _ t h
    · rw [if_neg hs] at h
      simp at h
  · intro α ops a b t h
    unfold Tensor.matmul at h
    by_cases hs : a.ndim = 2 ∧ b.ndim = 2 ∧ a.shape.getD 1 0 = b.shape.getD 0 0
    · rw [if_pos hs] at h
      exact hbind α _ _ t h
    · rw [if_neg hs] at h
      simp at h
  · intro α a shape t h
    unfold Tensor.reshape at h
    by_cases hs : a.size = shape.prod
    · rw [if_pos hs] at h
      exact from_data_lenInv h
    · rw [if_neg hs] at h
      simp at h
  · intro α a t h
    unfold Tensor.transpose at h
    by_cases hs : a.ndim = 2
    · rw [if_pos hs] at h
      exact hbind α _ _ t h
    · rw [if_neg hs] at h
      simp at h
  · intro α a h
    exact h

/-- C8 witness: the invariant evaluated on the tensor built by `from_data`
from a concrete buffer and shape. -/
theorem c8_witness :
    Tensor.from_data [(1 : Int), 2] [2] = some (Tensor.mk [(1 : Int), 2] [2] [1]) ∧
      (Tensor.mk [(1 : Int), 2] [2] [1]).lenInv :=
  ⟨by decide, c8_len_invariants.2.2.2.1 Int [(1 : Int), 2] [2]
    (Tensor.mk [(1 : Int), 2] [2] [1]) (by decide)⟩

/-- C2: the repository's CPU backend matmul (the parallel variant embedded
from cpu.rs) and the sequential variant modelled from the spec return
identical output buffers for every pair of identical inputs — same buffers,
same shapes — including identical failure behaviour. -/
theorem c2_seq_par_identical :
    ∀ (α : Type) (ops : NumOps α) (a : List α) (aShape : List Nat)
      (b : List α) (bShape : List Nat),
      CpuBackend.matmulSeq ops a aShape b bShape =
        CpuBackend.matmul ops a aShape b bShape := by
  intro α ops a aShape b bShape
  unfold CpuBackend.matmulSeq CpuBackend.matmul
  by_cases h : aShape.length = 2 ∧ bShape.length = 2 ∧ aShape.getD 1 0 = bShape.getD 0 0
  · rw [if_pos h, if_pos h,
      range_flatMap_blocks (aShape.getD 0 0) (bShape.getD 1 0) (fun i j => (i, j)),
      mapM_option_map]
  · rw [if_neg h, if_neg h]

/-- C4: every precondition violation — mismatched operand buffer lengths for
the backend elementwise operations, mismatched shapes for the tensor
elementwise operations, non-2D or incompatible-inner-dimension operands for
matmul, an index count different from ndim, or an out-of-bounds
per-dimension index — aborts (modelled `none`) with no partial result; in
particular `add` on buffers of length 3 and 2 fails. -/
theorem c4_precondition_failures :
    (∀ (α : Type) (ops : NumOps α) (a b : List α), a.length ≠ b.length →
      CpuBackend.add ops a b = none ∧ CpuBackend.sub ops a b = none ∧
      CpuBackend.mul ops a b = none ∧ CpuBackend.div ops a b = none) ∧
    (∀ (α : Type) (ops : NumOps α) (t u : Tensor α), t.shape ≠ u.shape →
      Tensor.add ops t u = none ∧ Tensor.sub ops t u = none ∧
      Tensor.mul ops t u = none ∧ Tensor.div ops t u = none) ∧
    (∀ (α : Type) (ops : NumOps α) (t u : Tensor α),
      t.ndim ≠ 2 ∨ u.ndim ≠ 2 ∨ t.shape.getD 1 0 ≠ u.shape.getD 0 0 →
      Tensor.matmul ops t u = none) ∧
    (∀ (α : Type) (t : Tensor α) (indices : List Nat),
      indices.length ≠ t.ndim → t.get_flat_index indices = none) ∧
    (∀ (α : Type) (t : Tensor α) (indices : List Nat) (i : Nat),
      indices.length = t.ndim → i < indices.length →
      t.shape.getD i 0 ≤ indices.getD i 0 →
      t.get_flat_index indices = none) ∧
    CpuBackend.add intOps [1, 2, 3] [4, 5] = none := by
  refine ⟨?_, ?_, ?_, ?_, ?_, ?_⟩
  · intro α ops a b h
    exact ⟨by rw [CpuBackend.add, if_neg h], by rw [CpuBackend.sub, if_neg h],
      by rw [CpuBackend.mul, if_neg h], by rw [CpuBackend.div, if_neg h]⟩
  · intro α ops t u h
    exact ⟨by rw [Tensor.add, if_neg h], by rw [Tensor.sub, if_neg h],
      by rw [Tensor.mul, if_neg h], by rw [Tensor.div, if_neg h]⟩
  · intro α ops t u h
    have hne : ¬(t.ndim = 2 ∧ u.ndim = 2 ∧ t.shape.getD 1 0 = u.shape.getD 0 0) := by
      tauto
    rw [Tensor.matmul, if_neg hne]
  · intro α t indices h
    rw [Tensor.get_flat_index, if_neg h]
  · intro α t indices i hlen hi hoob
    have hish : i < t.shape.length := by
      unfold Tensor.ndim at hlen
      omega
    have hmem : (indices.getD i 0, t.shape.getD i 0) ∈ List.zip indices t.shape :=
      List.getElem?_mem (zip_getElem?_getD indices t.shape i hi hish)
    have hall : ¬((List.zip indices t.shape).all (fun p => decide (p.1 < p.2)) = true) := by
      rw [List.all_eq_true]
      intro hall
      have hd := hall _ hmem
      rw [decide_eq_true_eq] at hd
      omega
    rw [Tensor.get_flat_index, if_pos hlen, if_neg hall]
  · rw [CpuBackend.add, if_neg (by decide)]

/-- C4 witness: the backend `add` of the length-3 and length-2 buffers of
the spec's concrete scenario aborts with no partial result. -/
theorem c4_witness :
    ([(1 : Int), 2, 3].length ≠ [(4 : Int), 5].length) ∧
      CpuBackend.add intOps [1, 2, 3] [4, 5] = none :=
  ⟨by decide, (c4_precondition_failures.1 Int intOps [1, 2, 3] [4, 5] (by decide)).1⟩

/-- C7: for every non-empty shape, `compute_strides` returns a stride vector
of the same length with last stride 1 and `strides[i] = strides[i+1] *
shape[i+1]`; and `get_flat_index` on an index vector of the right length
whose components are within their dimensions returns
`Σ indices[i] * strides[i]`. -/
theorem c7_strides_and_flat_index :
    (∀ shape : List Nat, shape ≠ [] →
      compute_strides shape = some (stridesOf shape) ∧
      (stridesOf shape).length = shape.length ∧
      (stridesOf shape).getD (shape.length - 1) 0 = 1 ∧
      (∀ i, i + 1 < shape.length →
        (stridesOf shape).getD i 0 =
          (stridesOf shape).getD (i + 1) 0 * shape.getD (i + 1) 0)) ∧
    (∀ (α : Type) (t : Tensor α) (indices : List Nat),
      indices.length = t.ndim →
      List.Forall₂ (fun i s => i < s) indices t.shape →
      t.get_flat_index indices =
        some ((List.zipWith (fun i s => i * s) indices t.strides).sum)) := by
  constructor
  · intro shape hne
    have hpos : 0 < shape.length := List.length_pos.mpr hne
    refine ⟨?_, stridesOf_length shape, ?_, ?_⟩
    · rw [compute_strides, if_neg (by omega)]
    · rw [stridesOf_getD shape (shape.length - 1) (by omega)]
      have : shape.length - 1 + 1 = shape.length := by omega
      rw [this, List.drop_length, List.prod_nil]
    · intro i hi
      rw [stridesOf_getD shape i (by omega), stridesOf_getD shape (i + 1) hi,
        List.drop_eq_getElem_cons hi, List.prod_cons,
        List.getD_eq_getElem?_getD, List.getElem?_eq_getElem hi]
      simp only [Option.getD_some]
      ring
  · intro α t indices hlen hv
    unfold Tensor.get_flat_index
    have hlen2 : indices.length = t.shape.length := by
      unfold Tensor.ndim at hlen
      exact hlen
    rw [if_pos hlen, if_pos ((all_zip_lt_iff indices t.shape hlen2).mpr hv)]

/-- C7 witness: the stride vector of shape `[2,3,4]` and the flat index of
`[1,2,3]` in a concrete tensor of that shape. -/
theorem c7_witness :
    (([2, 3, 4] : List Nat) ≠ [] ∧
      compute_strides [2, 3, 4] = some (stridesOf [2, 3, 4])) ∧
      ((Tensor.mk (List.replicate 24 (0 : Int)) [2, 3, 4] [12, 4, 1]).get_flat_index
          [1, 2, 3] =
        some ((List.zipWith (fun i s => i * s) [1, 2, 3] [12, 4, 1]).sum)) :=
  ⟨⟨by decide, (c7_strides_and_flat_index.1 [2, 3, 4] (by decide)).1⟩,
    c7_strides_and_flat_index.2 Int
      (Tensor.mk (List.replicate 24 (0 : Int)) [2, 3, 4] [12, 4, 1]) [1, 2, 3]
      (by decide)
      (by
        refine List.Forall₂.cons (by decide) ?_
        refine List.Forall₂.cons (by decide) ?_
        exact List.Forall₂.cons (by decide) List.Forall₂.nil)⟩

/-- C9: for every shape, the backend's `zeros` and `ones` return buffers of
exactly `product(shape)` elements filled with the element type's default
value and with the value synthesized from the integer 1 respectively, and
`allocate` returns a buffer sized for `product(shape)` elements; concretely
`zeros([2,2]) = [0,0,0,0]` and `ones([3]) = [1,1,1]`. -/
theorem c9_allocate_zeros_ones :
    (∀ (α : Type) (ops : NumOps α) (shape : List Nat),
      (CpuBackend.zeros ops shape).length = shape.prod ∧
      (∀ x ∈ CpuBackend.zeros ops shape, x = ops.dflt) ∧
      (CpuBackend.ones ops shape).length = shape.prod ∧
      (∀ x ∈ CpuBackend.ones ops shape, x = ops.fromU8 1) ∧
      (CpuBackend.allocate ops shape).length = shape.prod) ∧
    CpuBackend.zeros intOps [2, 2] = [0, 0, 0, 0] ∧
    CpuBackend.ones intOps [3] = [1, 1, 1] := by
  refine ⟨fun α ops shape => ⟨?_, ?_, ?_, ?_, ?_⟩, ?_, ?_⟩
  · rw [CpuBackend.zeros, List.length_replicate]
  · intro x hx
    exact List.eq_of_mem_replicate hx
  · rw [CpuBackend.ones, List.length_replicate]
  · intro x hx
    exact List.eq_of_mem_replicate hx
  · rw [CpuBackend.allocate, List.length_replicate]
  · decide
  · decide

/-- C9 witness: the fill property evaluated at a concrete shape. -/
theorem c9_witness :
    (0 : Int) ∈ CpuBackend.zeros intOps [2, 3] ∧ (0 : Int) = intOps.dflt :=
  ⟨by decide, (c9_allocate_zeros_ones.1 Int intOps [2, 3]).2.1 0 (by decide)⟩

/-- C10: for the empty shape (zero dimensions, product 1, denoting a
scalar), `compute_strides` panics — the loop bound `0..shape.len()-1`
underflows — and therefore every constructor (`new`, `zeros`, `ones`,
`from_data`) panics as well instead of returning a tensor with an empty
stride vector; the abort is modelled by `none`. -/
theorem c10_empty_shape_aborts :
    List.prod ([] : List Nat) = 1 ∧
    compute_strides ([] : List Nat) = none ∧
    (∀ (α : Type) (ops : NumOps α),
      Tensor.new ops ([] : List Nat) = none ∧
      Tensor.zeros ops ([] : List Nat) = none ∧
      Tensor.ones ops ([] : List Nat) = none) ∧
    (∀ (α : Type) (data : List α), Tensor.from_data data ([] : List Nat) = none) := by
  refine ⟨rfl, rfl, fun α ops => ⟨rfl, rfl, rfl⟩, fun α data => ?_⟩
  unfold Tensor.from_data
  by_cases h : data.length = List.prod ([] : List Nat)
  · rw [if_pos h]
    rfl
  · rw [if_neg h]

section MatmulHelpers

variable {α : Type}

theorem matmul_backend_eq (ops : NumOps α) (a b : List α) (m k n : Nat)
    (hA : a.length = m * k) (hB : b.length = k * n) :
    CpuBackend.matmul ops a [m, k] b [k, n] =
      some ((List.range (m * n)).map (fun index =>
        (List.range k).foldl
          (fun sum l => ops.add sum (ops.mul (a.getD (index / n * k + l) ops.dflt)
            (b.getD (l * n + index % n) ops.dflt))) ops.dflt)) := by
  have h2 : CpuBackend.matmul ops a [m, k] b [k, n] =
      (List.range (m * n)).mapM
        (fun index => CpuBackend.matmulCellM ops a b k n (index / n) (index % n)) := by
    rw [CpuBackend.matmul, if_pos ⟨rfl, rfl, rfl⟩]
    rfl
  rw [h2]
  apply mapM_option_eq_map
  intro index hidx
  rw [List.mem_range] at hidx
  have hn : 0 < n := by
    rcases Nat.eq_zero_or_pos n with h0 | h0
    · subst h0
      simp at hidx
    · exact h0
  have hi : index / n < m := (Nat.div_lt_iff_lt_mul hn).mpr hidx
  have hj : index % n < n := Nat.mod_lt index hn
  apply matmulCellM_eq_some
  · intro l hl
    rw [hA]
    exact encode_lt (index / n) l m k hi hl
  · intro l hl
    rw [hB]
    exact encode_lt l (index % n) k n hl hj

end MatmulHelpers

/-- C1: for 2-D tensors `A` of shape `[m,k]` and `B` of shape `[k,n]` whose
buffers have the invariant lengths, `matmul` succeeds with shape `[m,n]` and
`m*n` elements, and the row-major cell `[i,j]` equals the left fold over
ascending `l` of `sum + A[i,l] * B[l,j]` starting from the default value —
the fold over `List.range k` states both the value and the ascending
accumulation order. -/
theorem c1_matmul_correct (α : Type) (ops : NumOps α) (A B : Tensor α) (m k n : Nat)
    (ha : A.shape = [m, k]) (hb : B.shape = [k, n])
    (hA : A.data.length = m * k) (hB : B.data.length = k * n) :
    ∃ C, Tensor.matmul ops A B = some C ∧ C.shape = [m, n] ∧ C.data.length = m * n ∧
      ∀ i j, i < m → j < n →
        C.data[i * n + j]? =
          some ((List.range k).foldl
            (fun sum l => ops.add sum (ops.mul (A.data.getD (i * k + l) ops.dflt)
              (B.data.getD (l * n + j) ops.dflt))) ops.dflt) := by
  have hcond : A.ndim = 2 ∧ B.ndim = 2 ∧ A.shape.getD 1 0 = B.shape.getD 0 0 := by
    refine ⟨?_, ?_, ?_⟩
    · rw [Tensor.ndim, ha]
      rfl
    · rw [Tensor.ndim, hb]
      rfl
    · rw [ha, hb]
      rfl
  refine ⟨⟨(List.range (m * n)).map (fun index =>
      (List.range k).foldl
        (fun sum l => ops.add sum (ops.mul (A.data.getD (index / n * k + l) ops.dflt)
          (B.data.getD (l * n + index % n) ops.dflt))) ops.dflt),
    [m, n], stridesOf [m, n]⟩, ?_, rfl, ?_, ?_⟩
  · unfold Tensor.matmul
    rw [if_pos hcond, ha, hb, matmul_backend_eq ops A.data B.data m k n hA hB,
      Option.some_bind]
    exact from_data_eq _ _
      (by rw [List.length_map, List.length_range]; simp) (by simp)
  · rw [List.length_map, List.length_range]
  · intro i j hi hj
    rw [List.getElem?_map, List.getElem?_range (encode_lt i j m n hi hj),
      Option.map_some', encode_div i j n hj, encode_mod i j n hj]

/-- C1 witness: the spec's concrete scenario A = [[1,2,3],[4,5,6]] (shape
[2,3]) and B = [[7,8],[9,10],[11,12]] (shape [3,2]). -/
theorem c1_witness :
    ((Tensor.mk [(1 : Int), 2, 3, 4, 5, 6] [2, 3] [3, 1]).shape = [2, 3] ∧
      (Tensor.mk [(7 : Int), 8, 9, 10, 11, 12] [3, 2] [2, 1]).shape = [3, 2] ∧
      (Tensor.mk [(1 : Int), 2, 3, 4, 5, 6] [2, 3] [3, 1]).data.length = 2 * 3 ∧
      (Tensor.mk [(7 : Int), 8, 9, 10, 11, 12] [3, 2] [2, 1]).data.length = 3 * 2) ∧
    ∃ C, Tensor.matmul intOps (Tensor.mk [(1 : Int), 2, 3, 4, 5, 6] [2, 3] [3, 1])
        (Tensor.mk [(7 : Int), 8, 9, 10, 11, 12] [3, 2] [2, 1]) = some C ∧
      C.shape = [2, 2] ∧ C.data.length = 2 * 2 ∧
      ∀ i j, i < 2 → j < 2 →
        C.data[i * 2 + j]? =
          some ((List.range 3).foldl
            (fun sum l => intOps.add sum
              (intOps.mul ((Tensor.mk [(1 : Int), 2, 3, 4, 5, 6] [2, 3] [3, 1]).data.getD
                (i * 3 + l) intOps.dflt)
              ((Tensor.mk [(7 : Int), 8, 9, 10, 11, 12] [3, 2] [2, 1]).data.getD
                (l * 2 + j) intOps.dflt))) intOps.dflt) :=
  ⟨⟨rfl, rfl, rfl, rfl⟩,
    c1_matmul_correct Int intOps (Tensor.mk [(1 : Int), 2, 3, 4, 5, 6] [2, 3] [3, 1])
      (Tensor.mk [(7 : Int), 8, 9, 10, 11, 12] [3, 2] [2, 1]) 2 3 2 rfl rfl rfl rfl⟩

/-- C5: in a well-formed tensor, after `set(idx, v)` the element at `idx`
reads back as `v` and every other valid multi-index reads the same value as
before the `set`. -/
theorem c5_set_get_frame (α : Type) (t : Tensor α) (idx idx2 : List Nat) (v : α)
    (hlen : t.data.length = t.shape.prod) (hst : t.strides = stridesOf t.shape)
    (h1 : List.Forall₂ (fun i s => i < s) idx t.shape)
    (h2 : List.Forall₂ (fun i s => i < s) idx2 t.shape)
    (hne : idx2 ≠ idx) :
    ∃ t2, t.set idx v = some t2 ∧ t2.get idx = some v ∧ t2.get idx2 = t.get idx2 := by
  have hf1 : t.get_flat_index idx = some (flatOf t.shape idx) :=
    get_flat_index_eq t idx hst h1
  have hf2 : t.get_flat_index idx2 = some (flatOf t.shape idx2) :=
    get_flat_index_eq t idx2 hst h2
  have hb1 : flatOf t.shape idx < t.data.length := by
    rw [hlen]
    exact flatOf_lt h1
  have hb2 : flatOf t.shape idx2 < t.data.length := by
    rw [hlen]
    exact flatOf_lt h2
  have hneq : flatOf t.shape idx ≠ flatOf t.shape idx2 :=
    fun he => hne (flatOf_inj t.shape idx2 idx h2 h1 he.symm)
  have hf1' : Tensor.get_flat_index ⟨t.data.set (flatOf t.shape idx) v, t.shape, t.strides⟩ idx =
      some (flatOf t.shape idx) := get_flat_index_eq _ idx hst h1
  have hf2' : Tensor.get_flat_index ⟨t.data.set (flatOf t.shape idx) v, t.shape, t.strides⟩ idx2 =
      some (flatOf t.shape idx2) := get_flat_index_eq _ idx2 hst h2
  refine ⟨⟨t.data.set (flatOf t.shape idx) v, t.shape, t.strides⟩, ?_, ?_, ?_⟩
  · unfold Tensor.set
    rw [hf1, Option.some_bind, if_pos hb1]
  · unfold Tensor.get
    rw [hf1', Option.some_bind]
    exact List.getElem?_set_self hb1
  · unfold Tensor.get
    rw [hf2', hf2, Option.some_bind, Option.some_bind]
    exact List.getElem?_set_ne hneq

/-- C5 witness: setting element [1,2] of a concrete shape-[2,3] tensor to 42
leaves element [0,0] unchanged. -/
theorem c5_witness :
    ((Tensor.mk [(1 : Int), 2, 3, 4, 5, 6] [2, 3] [3, 1]).data.length =
        (Tensor.mk [(1 : Int), 2, 3, 4, 5, 6] [2, 3] [3, 1]).shape.prod ∧
      (Tensor.mk [(1 : Int), 2, 3, 4, 5, 6] [2, 3] [3, 1]).strides =
        stridesOf (Tensor.mk [(1 : Int), 2, 3, 4, 5, 6] [2, 3] [3, 1]).shape ∧
      ([0, 0] : List Nat) ≠ [1, 2]) ∧
    ∃ t2, (Tensor.mk [(1 : Int), 2, 3, 4, 5, 6] [2, 3] [3, 1]).set [1, 2] 42 = some t2 ∧
      t2.get [1, 2] = some 42 ∧
      t2.get [0, 0] = (Tensor.mk [(1 : Int), 2, 3, 4, 5, 6] [2, 3] [3, 1]).get [0, 0] :=
  ⟨⟨rfl, rfl, by decide⟩,
    c5_set_get_frame Int (Tensor.mk [(1 : Int), 2, 3, 4, 5, 6] [2, 3] [3, 1])
      [1, 2] [0, 0] 42 rfl rfl
      (List.Forall₂.cons (by decide) (List.Forall₂.cons (by decide) List.Forall₂.nil))
      (List.Forall₂.cons (by decide) (List.Forall₂.cons (by decide) List.Forall₂.nil))
      (by decide)⟩

section TransposeHelpers

variable {α : Type}

theorem transpose_spec (X : Tensor α) (r c : Nat)
    (hsh : X.shape = [r, c]) (hlen : X.data.length = r * c) :
    ∃ Y, X.transpose = some Y ∧ Y.shape = [c, r] ∧ Y.data.length = c * r ∧
      ∀ i j, i < r → j < c → Y.data[j * r + i]? = X.data[i * c + j]? := by
  obtain ⟨rd, hrd⟩ := mapM_option_isSome (Tensor.transposeIdx r c)
    (fun idx => X.data[idx]?)
    (fun x hx => by
      show (X.data[x]?).isSome = true
      rw [List.getElem?_eq_getElem (by rw [hlen]; exact transposeIdx_mem_lt r c x hx)]
      rfl)
  have hrdlen : rd.length = c * r := by
    rw [mapM_option_length _ _ _ hrd, transposeIdx_length]
  refine ⟨⟨rd, [c, r], stridesOf [c, r]⟩, ?_, rfl, hrdlen, ?_⟩
  · unfold Tensor.transpose
    have hnd : X.ndim = 2 := by
      rw [Tensor.ndim, hsh]
      rfl
    rw [if_pos hnd, hsh]
    simp only [List.getD_cons_zero, List.getD_cons_succ]
    rw [hrd, Option.some_bind]
    exact from_data_eq rd [c, r] (by rw [hrdlen]; simp) (by simp)
  · intro i j hi hj
    have he := mapM_option_getElem? _ _ _ hrd (j * r + i)
    rw [transposeIdx_getElem? r c i j hi hj, Option.some_bind] at he
    exact he

end TransposeHelpers

/-- C6: for a 2-D tensor X of shape [r,c] with the invariant buffer length,
`transpose` succeeds with shape [c,r], element [j,i] of the output equals
element [i,j] of the input, and transposing twice restores both data and
shape. -/
theorem c6_transpose_involution (α : Type) (X : Tensor α) (r c : Nat)
    (hsh : X.shape = [r, c]) (hlen : X.data.length = r * c) :
    ∃ Y, X.transpose = some Y ∧ Y.shape = [c, r] ∧
      (∀ i j, i < r → j < c → Y.data[j * r + i]? = X.data[i * c + j]?) ∧
      ∃ Z, Y.transpose = some Z ∧ Z.data = X.data ∧ Z.shape = X.shape := by
  obtain ⟨Y, hY, hYsh, hYlen, hYel⟩ := transpose_spec X r c hsh hlen
  obtain ⟨Z, hZ, hZsh, hZlen, hZel⟩ := transpose_spec Y c r hYsh hYlen
  refine ⟨Y, hY, hYsh, hYel, Z, hZ, ?_, by rw [hZsh, hsh]⟩
  apply List.ext_getElem?
  intro q
  by_cases hq : q < r * c
  · have hc : 0 < c := by
      rcases Nat.eq_zero_or_pos c with h0 | h0
      · subst h0
        simp at hq
      · exact h0
    have hi : q / c < r := (Nat.div_lt_iff_lt_mul hc).mpr hq
    have hj : q % c < c := Nat.mod_lt q hc
    have hdecomp : q / c * c + q % c = q := by
      rw [Nat.mul_comm (q / c) c]
      exact Nat.div_add_mod q c
    have e1 := hZel (q % c) (q / c) hj hi
    have e2 := hYel (q / c) (q % c) hi hj
    rw [← hdecomp, e1, e2]
  · push_neg at hq
    rw [List.getElem?_eq_none (by rw [hZlen]; exact hq),
      List.getElem?_eq_none (by rw [hlen]; exact hq)]

/-- C6 witness: transposing a concrete 2x3 tensor and transposing back. -/
theorem c6_witness :
    ((Tensor.mk [(1 : Int), 2, 3, 4, 5, 6] [2, 3] [3, 1]).shape = [2, 3] ∧
      (Tensor.mk [(1 : Int), 2, 3, 4, 5, 6] [2, 3] [3, 1]).data.length = 2 * 3) ∧
    ∃ Y, (Tensor.mk [(1 : Int), 2, 3, 4, 5, 6] [2, 3] [3, 1]).transpose = some Y ∧
      Y.shape = [3, 2] ∧
      (∀ i j, i < 2 → j < 3 →
        Y.data[j * 2 + i]? =
          (Tensor.mk [(1 : Int), 2, 3, 4, 5, 6] [2, 3] [3, 1]).data[i * 3 + j]?) ∧
      ∃ Z, Y.transpose = some Z ∧
        Z.data = (Tensor.mk [(1 : Int), 2, 3, 4, 5, 6] [2, 3] [3, 1]).data ∧
        Z.shape = (Tensor.mk [(1 : Int), 2, 3, 4, 5, 6] [2, 3] [3, 1]).shape :=
  ⟨⟨rfl, rfl⟩,
    c6_transpose_involution Int (Tensor.mk [(1 : Int), 2, 3, 4, 5, 6] [2, 3] [3, 1])
      2 3 rfl rfl⟩

end Kranium
